import Mathlib

/-!
# sysagent: sampling tick, rate computation and snapshot assembly

A shallow embedding of `collector_linux.go` (type `LinuxCollector`, its
sampling loop body, `GetMetrics` and the raw readers it calls) together with
the parts of the Go language the code relies on: unsigned 64-bit subtraction,
IEEE 754 binary64 arithmetic with round-to-nearest-even, `strings.Fields`,
`strings.TrimSpace`, `strconv.ParseUint`, `strconv.Atoi` and
`time.Duration.Seconds`.
-/

namespace SysAgent

/-! ## Go `float64`: IEEE 754 binary64, round to nearest, ties to even -/

/-- Bit length of a natural number, with explicit fuel. -/
def bitLenAux : Nat → Nat → Nat
  | 0, _ => 0
  | fuel + 1, n => if n = 0 then 0 else bitLenAux fuel (n / 2) + 1

/-- Number of binary digits of `n` (`0` for `n = 0`). -/
def bitLen (n : Nat) : Nat := bitLenAux n n

/-- Binary exponent of a positive rational `q`: the `e` with
`2 ^ e ≤ q < 2 ^ (e + 1)`. -/
def expoPos (q : ℚ) : ℤ :=
  let e0 : ℤ := (bitLen q.num.natAbs : ℤ) - (bitLen q.den : ℤ)
  if (2 : ℚ) ^ e0 ≤ q then e0 else e0 - 1

/-- Round a rational to the nearest integer, ties to the even one. -/
def rne (y : ℚ) : ℤ :=
  let f := y.floor
  let r := y - f
  if r < 1 / 2 then f else if 1 / 2 < r then f + 1 else if f % 2 = 0 then f else f + 1

/-- Spacing of binary64 values around `q`: 53 significant bits, smallest
normal exponent `-1022` (below it the subnormal spacing `2 ^ (-1074)`). -/
def ulp (q : ℚ) : ℚ := (2 : ℚ) ^ (max (expoPos |q|) (-1022) - 52)

/-- Round-to-nearest-even of a rational onto the binary64 grid, the exponent
range above still unbounded. -/
def roundQ (q : ℚ) : ℚ := (rne (q / ulp q) : ℚ) * ulp q

/-- A `float64` value. The two zeros are identified: no division of the
program has a zero divisor (each is guarded or divides by a constant). -/
inductive F64 where
  | nan : F64
  | inf (neg : Bool) : F64
  | fin (q : ℚ) : F64
  deriving DecidableEq, Repr

namespace F64

/-- Rounding of an exact result: overflow to infinity from `2 ^ 1024` on. -/
def ofRat (q : ℚ) : F64 :=
  let r := roundQ q
  if (2 : ℚ) ^ (1024 : ℕ) ≤ |r| then inf (decide (q < 0)) else fin r

/-- Conversion `float64(n)` of an integer. -/
def ofNat (n : Nat) : F64 := ofRat (n : ℚ)

/-- Conversion `float64(i)` of a signed integer. -/
def ofInt (i : Int) : F64 := ofRat (i : ℚ)

/-- Unary minus. -/
def neg : F64 → F64
  | nan => nan
  | inf s => inf (!s)
  | fin q => fin (-q)

/-- Float addition. -/
def add : F64 → F64 → F64
  | nan, _ => nan
  | _, nan => nan
  | inf s, inf t => if s = t then inf s else nan
  | inf s, fin _ => inf s
  | fin _, inf t => inf t
  | fin a, fin b => ofRat (a + b)

/-- Float subtraction. -/
def sub (x y : F64) : F64 := add x (neg y)

/-- Float multiplication. -/
def mul : F64 → F64 → F64
  | nan, _ => nan
  | _, nan => nan
  | inf s, inf t => inf (xor s t)
  | inf s, fin b => if b = 0 then nan else inf (xor s (decide (b < 0)))
  | fin a, inf t => if a = 0 then nan else inf (xor (decide (a < 0)) t)
  | fin a, fin b => ofRat (a * b)

/-- Float division. -/
def div : F64 → F64 → F64
  | nan, _ => nan
  | _, nan => nan
  | inf _, inf _ => nan
  | inf s, fin b => inf (xor s (decide (b < 0)))
  | fin _, inf _ => fin 0
  | fin a, fin b =>
    if b = 0 then (if a = 0 then nan else inf (decide (a < 0))) else ofRat (a / b)

/-- Float comparison `x < y` (false when either side is NaN). -/
def lt : F64 → F64 → Bool
  | nan, _ => false
  | _, nan => false
  | inf s, inf t => s && !t
  | inf s, fin _ => s
  | fin _, inf t => !t
  | fin a, fin b => decide (a < b)

end F64

/-! ## Go integers, strings and `strconv` -/

/-- Unsigned 64-bit subtraction `a - b`: wraps modulo `2 ^ 64`. -/
def subU64 (a b : Nat) : Nat := (a % 2 ^ 64 + 2 ^ 64 - b % 2 ^ 64) % 2 ^ 64

/-- Unsigned 64-bit multiplication. -/
def mulU64 (a b : Nat) : Nat := (a * b) % 2 ^ 64

/-- Conversion `uint64(i)` of a signed 64-bit integer. -/
def toU64 (i : Int) : Nat := (i % 2 ^ 64).toNat

/-- The predicate `unicode.IsSpace`. -/
def isSpace (c : Char) : Bool :=
  let n := c.toNat
  n = 0x09 || n = 0x0A || n = 0x0B || n = 0x0C || n = 0x0D || n = 0x20 ||
  n = 0x85 || n = 0xA0 || n = 0x1680 || (0x2000 ≤ n && n ≤ 0x200A) ||
  n = 0x2028 || n = 0x2029 || n = 0x202F || n = 0x205F || n = 0x3000

/-- Scan of `strings.Fields`: `cur` is the field being read, reversed. -/
def fieldsAux : List Char → List Char → List String
  | [], cur => if cur.isEmpty then [] else [String.mk cur.reverse]
  | c :: cs, cur =>
    if isSpace c then
      (if cur.isEmpty then fieldsAux cs [] else String.mk cur.reverse :: fieldsAux cs [])
    else fieldsAux cs (c :: cur)

/-- The function `strings.Fields`: the maximal runs of non-space characters. -/
def fields (s : String) : List String := fieldsAux s.data []

/-- The function `strings.TrimSpace`. -/
def trimSpace (s : String) : String :=
  String.mk ((s.data.dropWhile isSpace).reverse.dropWhile isSpace).reverse

/-- The error of a `strconv` integer conversion. -/
inductive NumErr where
  | ok : NumErr
  | invalid : NumErr
  | range : NumErr
  deriving DecidableEq, Repr

/-- Largest `uint64`. -/
def maxU64 : Nat := 2 ^ 64 - 1

/-- Digit loop of `strconv.ParseUint(s, 10, 64)`. -/
def parseUintAux : List Char → Nat → Nat × NumErr
  | [], n => (n, NumErr.ok)
  | c :: cs, n =>
    if 48 ≤ c.toNat ∧ c.toNat ≤ 57 then
      if maxU64 / 10 + 1 ≤ n then (maxU64, NumErr.range)
      else
        let n1 := n * 10 + (c.toNat - 48)
        if maxU64 < n1 then (maxU64, NumErr.range) else parseUintAux cs n1
    else (0, NumErr.invalid)

/-- The function `strconv.ParseUint(s, 10, 64)`. -/
def parseUint (s : List Char) : Nat × NumErr :=
  if s.isEmpty then (0, NumErr.invalid) else parseUintAux s 0

/-- The function `strconv.ParseInt(s, 10, 0)` with a 64-bit `int`. -/
def parseInt (s : List Char) : Int × NumErr :=
  match s with
  | [] => (0, NumErr.invalid)
  | c :: cs =>
    let isNeg := decide (c = '-')
    let rest := if c = '+' ∨ c = '-' then cs else c :: cs
    let r := parseUint rest
    if r.2 = NumErr.invalid then (0, NumErr.invalid)
    else if !isNeg && decide (2 ^ 63 ≤ r.1) then (2 ^ 63 - 1, NumErr.range)
    else if isNeg && decide (2 ^ 63 < r.1) then (-(2 ^ 63), NumErr.range)
    else (if isNeg then -(r.1 : Int) else (r.1 : Int), NumErr.ok)

/-- Digit loop of the fast path of `strconv.Atoi`. -/
def atoiFast : List Char → Int → Option Int
  | [], n => some n
  | c :: cs, n =>
    if 48 ≤ c.toNat ∧ c.toNat ≤ 57 then atoiFast cs (n * 10 + ((c.toNat - 48 : Nat) : Int))
    else none

/-- The function `strconv.Atoi` on a 64-bit platform: a fast path for
strings of 1 to 18 bytes, `ParseInt` otherwise. -/
def atoi (s : String) : Int × NumErr :=
  if 0 < s.utf8ByteSize ∧ s.utf8ByteSize < 19 then
    match s.data with
    | [] => (0, NumErr.invalid)
    | c :: cs =>
      let body := if c = '-' ∨ c = '+' then cs else c :: cs
      if body.isEmpty then (0, NumErr.invalid)
      else
        match atoiFast body 0 with
        | none => (0, NumErr.invalid)
        | some n => (if c = '-' then -n else n, NumErr.ok)
  else parseInt s.data

/-- The type of `strconv.ParseFloat(s, 64)`, a parameter of the readers:
the value and whether the error is nil. -/
abbrev FloatReader := String → F64 × Bool

/-- A stand-in for the parameter `strconv.ParseFloat`, meant for strings of
ASCII digits only. On those it agrees with `ParseFloat`: the digits are read
exactly and rounded once, and a number too large for `float64` comes back as
`+Inf` with a range error. Every other string it reports as an error, which
`ParseFloat` does not (`12.5`, `1e3`, `inf`); the general statements below
hold for every float reader, and only digit strings are ever parsed with
this one. -/
def readDecimal : FloatReader := fun s =>
  if s.data.isEmpty ∨ ¬ s.data.all Char.isDigit then (F64.fin 0, false)
  else
    let v := F64.ofNat (s.data.foldl (fun n c => n * 10 + (c.toNat - 48)) 0)
    (v, decide (v ≠ F64.inf false))

/-- The method `time.Duration.Seconds` of a duration of `d` nanoseconds. -/
def seconds (d : Int) : F64 :=
  let sec := Int.tdiv d 1000000000
  let nsec := Int.tmod d 1000000000
  F64.add (F64.ofInt sec) (F64.div (F64.ofInt nsec) (F64.fin 1000000000))

/-! ## The collector: cache, sampling loop -/

/-- The cached fields of `LinuxCollector`. -/
structure LinuxCollector where
  cpuUsage : F64
  netRxRateKB : F64
  netTxRateKB : F64
  deriving DecidableEq, Repr

/-- State of the sampling goroutine of `Start`: the previous samples it
closes over and the collector cache it writes. -/
structure Sampler where
  prevIdle : Nat
  prevTotal : Nat
  prevRx : Nat
  prevTx : Nat
  lc : LinuxCollector
  deriving DecidableEq, Repr

/-- Result of a counter sampler (`readCPUSample`, `readNetSample`): the two
counters when the error is nil, `none` otherwise. -/
abbrev Sample := Option (Nat × Nat)

/-- The constructor `NewCollector`: the cache starts at zero. -/
def NewCollector : LinuxCollector := ⟨F64.fin 0, F64.fin 0, F64.fin 0⟩

/-- A computation that may end in a run-time panic. -/
inductive Run (α : Type) where
  | panic : Run α
  | done : α → Run α
  deriving DecidableEq, Repr

/-- Sequencing of computations that may panic. -/
def Run.bind {α β : Type} (x : Run α) (f : α → Run β) : Run β :=
  match x with
  | Run.panic => Run.panic
  | Run.done a => f a

/-- The warm-up of `Start`: the first samples become the baseline, a failed
one leaves zeros; `time.NewTicker` panics on a non-positive interval. -/
def Start (lc : LinuxCollector) (interval : Int) (cpu net : Sample) : Run Sampler :=
  let p := cpu.getD (0, 0)
  let q := net.getD (0, 0)
  if interval ≤ 0 then Run.panic else Run.done ⟨p.1, p.2, q.1, q.2, lc⟩

/-- One tick of the loop of `Start` (the `case <-ticker.C` branch), given
the results of this tick's two counter samplers. -/
def tick (interval : Int) (cpu net : Sample) (s : Sampler) : Sampler :=
  let c : F64 × Nat × Nat :=
    match cpu with
    | some (idle, total) =>
      let deltaIdle := F64.ofNat (subU64 idle s.prevIdle)
      let deltaTotal := F64.ofNat (subU64 total s.prevTotal)
      let cpuUsage :=
        if F64.lt (F64.fin 0) deltaTotal then
          F64.mul (F64.sub (F64.fin 1) (F64.div deltaIdle deltaTotal)) (F64.fin 100)
        else F64.fin 0
      (cpuUsage, idle, total)
    | none => (F64.fin 0, s.prevIdle, s.prevTotal)
  let n : F64 × F64 × Nat × Nat :=
    match net with
    | some (currRx, currTx) =>
      let rxRate := F64.div (F64.div (F64.ofNat (subU64 currRx s.prevRx)) (seconds interval))
        (F64.fin 1024)
      let txRate := F64.div (F64.div (F64.ofNat (subU64 currTx s.prevTx)) (seconds interval))
        (F64.fin 1024)
      (rxRate, txRate, currRx, currTx)
    | none => (F64.fin 0, F64.fin 0, s.prevRx, s.prevTx)
  ⟨c.2.1, c.2.2, n.2.2.1, n.2.2.2,
    ⟨if cpu.isSome then c.1 else s.lc.cpuUsage,
     if net.isSome then n.1 else s.lc.netRxRateKB,
     if net.isSome then n.2.1 else s.lc.netTxRateKB⟩⟩

/-! ## The raw readers and `GetMetrics` -/

/-- The struct `Metric`. -/
structure Metric where
  CPUUsagePercent : F64
  MemUsagePercent : F64
  SwapUsagePercent : F64
  DiskFreeGB : F64
  Load1 : F64
  Load5 : F64
  Load15 : F64
  Uptime : F64
  FDOpen : Nat
  FDMax : Nat
  CPUTempCelsius : F64
  BatteryPercent : Int
  BatteryStatus : String
  NetRxRateKB : F64
  NetTxRateKB : F64
  deriving DecidableEq, Repr

/-- What the readers read. A source is `none` when opening or reading it
fails. `meminfo` holds the lines the scanner yields; `statfs` the fields
`Bavail` and `Bsize` of the root filesystem; `batteryPresent` is false when
`os.Stat` of the battery directory reports that it does not exist. -/
structure Host where
  meminfo : Option (List String)
  statfs : Option (Nat × Int)
  loadavg : Option String
  uptime : Option String
  temp : Option String
  fileNr : Option String
  batteryPresent : Bool
  batteryCapacity : Option String
  batteryStatus : Option String

/-- The four variables of the scan loop of `getMemAndSwapUsage`. -/
structure MemVars where
  memTotal : F64
  memAvailable : F64
  swapTotal : F64
  swapFree : F64
  deriving DecidableEq, Repr

/-- Body of the scan loop of `getMemAndSwapUsage` for one line. -/
def memLine (pf : FloatReader) (v : MemVars) (line : String) : MemVars :=
  match fields line with
  | key :: num :: _ =>
    let val := (pf num).1
    if key = "MemTotal:" then ⟨val, v.memAvailable, v.swapTotal, v.swapFree⟩
    else if key = "MemAvailable:" then ⟨v.memTotal, val, v.swapTotal, v.swapFree⟩
    else if key = "SwapTotal:" then ⟨v.memTotal, v.memAvailable, val, v.swapFree⟩
    else if key = "SwapFree:" then ⟨v.memTotal, v.memAvailable, v.swapTotal, val⟩
    else v
  | _ => v

/-- The reader `getMemAndSwapUsage`: `none` is a non-nil error. -/
def getMemAndSwapUsage (pf : FloatReader) (src : Option (List String)) : Option (F64 × F64) :=
  match src with
  | none => none
  | some lines =>
    let v := lines.foldl (memLine pf) ⟨F64.fin 0, F64.fin 0, F64.fin 0, F64.fin 0⟩
    let memUsage :=
      if F64.lt (F64.fin 0) v.memTotal then
        F64.mul (F64.div (F64.sub v.memTotal v.memAvailable) v.memTotal) (F64.fin 100)
      else F64.fin 0
    let swapUsage :=
      if F64.lt (F64.fin 0) v.swapTotal then
        F64.mul (F64.div (F64.sub v.swapTotal v.swapFree) v.swapTotal) (F64.fin 100)
      else F64.fin 0
    some (memUsage, swapUsage)

/-- Specification side of `getMemAndSwapUsage`: what the memory summary
gives for a key (`MemTotal:`, `MemAvailable:`, `SwapTotal:`, `SwapFree:`).
It is the number that follows the key on its line, on the last such line
when the key is repeated, and zero when no line has the key followed by a
second field. -/
def memField (pf : FloatReader) (key : String) (lines : List String) : F64 :=
  match lines.reverse.find? (fun l =>
      match fields l with
      | k :: _ :: _ => decide (k = key)
      | _ => false) with
  | some l =>
    match fields l with
    | _ :: num :: _ => (pf num).1
    | _ => F64.fin 0
  | none => F64.fin 0

/-- The reader `getDiskFree`. -/
def getDiskFree (src : Option (Nat × Int)) : Option F64 :=
  match src with
  | none => none
  | some (bavail, bsize) =>
    some (F64.div (F64.div (F64.div (F64.ofNat (mulU64 bavail (toU64 bsize))) (F64.fin 1024))
      (F64.fin 1024)) (F64.fin 1024))

/-- The reader `getLoadAvg`: indexing `parts[0]`, `parts[1]`, `parts[2]`
panics when the slice is too short. -/
def getLoadAvg (pf : FloatReader) (src : Option String) : Run (Option (F64 × F64 × F64)) :=
  match src with
  | none => Run.done none
  | some data =>
    match fields data with
    | p0 :: p1 :: p2 :: _ => Run.done (some ((pf p0).1, (pf p1).1, (pf p2).1))
    | _ => Run.panic

/-- The reader `getUptime`: indexing `parts[0]` panics on an empty slice;
the error of the conversion is returned. -/
def getUptime (pf : FloatReader) (src : Option String) : Run (Option F64) :=
  match src with
  | none => Run.done none
  | some data =>
    match fields data with
    | p0 :: _ => Run.done (if (pf p0).2 then some (pf p0).1 else none)
    | [] => Run.panic

/-- The reader `getCPUTemp`. -/
def getCPUTemp (pf : FloatReader) (src : Option String) : Option F64 :=
  match src with
  | none => none
  | some data => some (F64.div (pf (trimSpace data)).1 (F64.fin 1000))

/-- The reader `getFDStats`. -/
def getFDStats (src : Option String) : Option (Nat × Nat) :=
  match src with
  | none => none
  | some data =>
    match fields data with
    | p0 :: _ :: p2 :: _ => some ((parseUint p0.data).1, (parseUint p2.data).1)
    | _ => none

/-- The reader `getBatteryInfo`. -/
def getBatteryInfo (h : Host) : Option (Int × String) :=
  if !h.batteryPresent then some (100, "AC_Power")
  else
    match h.batteryCapacity with
    | none => none
    | some capData =>
      let pct := (atoi (trimSpace capData)).1
      match h.batteryStatus with
      | none => some (pct, "Unknown")
      | some statData => some (pct, trimSpace statData)

/-- The zero value of `Metric`. -/
def Metric.zero : Metric :=
  ⟨F64.fin 0, F64.fin 0, F64.fin 0, F64.fin 0, F64.fin 0, F64.fin 0, F64.fin 0, F64.fin 0,
    0, 0, F64.fin 0, 0, "", F64.fin 0, F64.fin 0⟩

/-- The method `GetMetrics`: the snapshot and whether the returned error is
nil, or a panic of one of the readers. -/
def GetMetrics (pf : FloatReader) (lc : LinuxCollector) (h : Host) : Run (Metric × Bool) :=
  let m0 : Metric := { Metric.zero with
    CPUUsagePercent := lc.cpuUsage, NetRxRateKB := lc.netRxRateKB, NetTxRateKB := lc.netTxRateKB }
  let m1 : Metric :=
    match getMemAndSwapUsage pf h.meminfo with
    | some (memUsage, swapUsage) =>
      { m0 with MemUsagePercent := memUsage, SwapUsagePercent := swapUsage }
    | none => m0
  let m2 : Metric :=
    match getDiskFree h.statfs with
    | some val => { m1 with DiskFreeGB := val }
    | none => m1
  (getLoadAvg pf h.loadavg).bind fun load =>
  let m3 : Metric :=
    match load with
    | some (l1, l5, l15) => { m2 with Load1 := l1, Load5 := l5, Load15 := l15 }
    | none => m2
  (getUptime pf h.uptime).bind fun up =>
  let m4 : Metric :=
    match up with
    | some val => { m3 with Uptime := F64.div val (F64.fin 3600) }
    | none => m3
  let m5 : Metric :=
    match getCPUTemp pf h.temp with
    | some val => { m4 with CPUTempCelsius := val }
    | none => m4
  let m6 : Metric :=
    match getFDStats h.fileNr with
    | some (fdOpen, fdMax) => { m5 with FDOpen := fdOpen, FDMax := fdMax }
    | none => m5
  let m7 : Metric :=
    match getBatteryInfo h with
    | some (pct, status) => { m6 with BatteryPercent := pct, BatteryStatus := status }
    | none => m6
  Run.done (m7, true)

/-! ## Facts about the rounding model -/

theorem bitLenAux_spec : ∀ (fuel n : Nat), n ≤ fuel → 0 < n →
    2 ^ (bitLenAux fuel n - 1) ≤ n ∧ n < 2 ^ bitLenAux fuel n ∧ 0 < bitLenAux fuel n := by
  intro fuel
  induction fuel with
  | zero => intro n h1 h2; omega
  | succ k ih =>
    intro n h1 h2
    have hn : n ≠ 0 := by omega
    simp only [bitLenAux, hn, if_false]
    by_cases h : n / 2 = 0
    · have h1 : n = 1 := by omega
      subst h1
      cases k <;> simp [bitLenAux]
    · obtain ⟨a, b, c⟩ := ih (n / 2) (by omega) (by omega)
      refine ⟨?_, ?_, by omega⟩
      · have e : bitLenAux k (n / 2) + 1 - 1 = (bitLenAux k (n / 2) - 1) + 1 := by omega
        rw [e, pow_succ]; omega
      · rw [pow_succ]; omega

theorem bitLen_spec {n : Nat} (h : 0 < n) :
    2 ^ (bitLen n - 1) ≤ n ∧ n < 2 ^ bitLen n ∧ 0 < bitLen n :=
  bitLenAux_spec n n le_rfl h

theorem expoPos_spec {q : ℚ} (hq : 0 < q) :
    (2 : ℚ) ^ expoPos q ≤ q ∧ q < (2 : ℚ) ^ (expoPos q + 1) := by
  have hnum : 0 < q.num := Rat.num_pos.mpr hq
  have hden : 0 < q.den := q.den_pos
  obtain ⟨a1, a2, a3⟩ := bitLen_spec (Int.natAbs_pos.mpr hnum.ne')
  obtain ⟨b1, b2, b3⟩ := bitLen_spec hden
  have hqe : q = (q.num.natAbs : ℚ) / (q.den : ℚ) := by
    have h0 : (q.num.natAbs : ℤ) = q.num := Int.natAbs_of_nonneg hnum.le
    have h1 : ((q.num.natAbs : ℕ) : ℚ) = (q.num : ℚ) :=
      calc ((q.num.natAbs : ℕ) : ℚ) = (((q.num.natAbs : ℕ) : ℤ) : ℚ) := (Int.cast_natCast _).symm
        _ = (q.num : ℚ) := by rw [h0]
    rw [h1]; exact (Rat.num_div_den q).symm
  have hd : (0 : ℚ) < (q.den : ℚ) := by exact_mod_cast hden
  have two : (2 : ℚ) ≠ 0 := by norm_num
  set A := bitLen q.num.natAbs with hA
  set B := bitLen q.den with hB
  set n := q.num.natAbs with hn
  have a1q : (2 : ℚ) ^ ((A : ℤ) - 1) ≤ (n : ℚ) := by
    have : ((A : ℤ) - 1) = ((A - 1 : ℕ) : ℤ) := by omega
    rw [this, zpow_natCast]; exact_mod_cast a1
  have a2q : (n : ℚ) < (2 : ℚ) ^ (A : ℤ) := by
    rw [zpow_natCast]; exact_mod_cast a2
  have b1q : (2 : ℚ) ^ ((B : ℤ) - 1) ≤ (q.den : ℚ) := by
    have : ((B : ℤ) - 1) = ((B - 1 : ℕ) : ℤ) := by omega
    rw [this, zpow_natCast]; exact_mod_cast b1
  have b2q : (q.den : ℚ) < (2 : ℚ) ^ (B : ℤ) := by
    rw [zpow_natCast]; exact_mod_cast b2
  have up : q < (2 : ℚ) ^ ((A : ℤ) - B + 1) := by
    rw [hqe, div_lt_iff₀ hd]
    calc (n : ℚ) < (2 : ℚ) ^ (A : ℤ) := a2q
      _ = (2 : ℚ) ^ ((A : ℤ) - B + 1) * (2 : ℚ) ^ ((B : ℤ) - 1) := by
          rw [← zpow_add₀ two]; congr 1; ring
      _ ≤ (2 : ℚ) ^ ((A : ℤ) - B + 1) * (q.den : ℚ) :=
          mul_le_mul_of_nonneg_left b1q (zpow_pos (by norm_num) _).le
  have lo : (2 : ℚ) ^ ((A : ℤ) - B - 1) ≤ q := by
    rw [hqe, le_div_iff₀ hd]
    calc (2 : ℚ) ^ ((A : ℤ) - B - 1) * (q.den : ℚ)
        ≤ (2 : ℚ) ^ ((A : ℤ) - B - 1) * (2 : ℚ) ^ (B : ℤ) :=
          mul_le_mul_of_nonneg_left b2q.le (zpow_pos (by norm_num) _).le
      _ = (2 : ℚ) ^ ((A : ℤ) - 1) := by
          rw [← zpow_add₀ two]; congr 1; ring
      _ ≤ (n : ℚ) := a1q
  unfold expoPos
  simp only
  split
  · next h => exact ⟨h, up⟩
  · next h =>
    refine ⟨lo, ?_⟩
    have : (A : ℤ) - B - 1 + 1 = (A : ℤ) - B := by ring
    rw [this]; exact not_le.mp h

theorem expoPos_unique {q : ℚ} {e : ℤ} (h1 : (2 : ℚ) ^ e ≤ q) (h2 : q < (2 : ℚ) ^ (e + 1)) :
    expoPos q = e := by
  have hq : 0 < q := lt_of_lt_of_le (zpow_pos (by norm_num) _) h1
  obtain ⟨s1, s2⟩ := expoPos_spec hq
  have one : (1 : ℚ) < 2 := by norm_num
  have c1 : e < expoPos q + 1 := (zpow_lt_zpow_iff_right₀ one).mp (lt_of_le_of_lt h1 s2)
  have c2 : expoPos q < e + 1 := (zpow_lt_zpow_iff_right₀ one).mp (lt_of_le_of_lt s1 h2)
  omega

theorem expoPos_mono {x y : ℚ} (hx : 0 < x) (hxy : x ≤ y) : expoPos x ≤ expoPos y := by
  obtain ⟨s1, _⟩ := expoPos_spec hx
  obtain ⟨_, t2⟩ := expoPos_spec (lt_of_lt_of_le hx hxy)
  have one : (1 : ℚ) < 2 := by norm_num
  have c : expoPos x < expoPos y + 1 :=
    (zpow_lt_zpow_iff_right₀ one).mp (lt_of_le_of_lt (le_trans s1 hxy) t2)
  omega

theorem rne_bounds (y : ℚ) : ⌊y⌋ ≤ rne y ∧ rne y ≤ ⌊y⌋ + 1 := by
  have hf : y.floor = ⌊y⌋ := rfl
  unfold rne
  simp only [hf]
  split_ifs <;> constructor <;> omega

theorem rne_intCast (n : ℤ) : rne (n : ℚ) = n := by
  have hf : (n : ℚ).floor = ⌊(n : ℚ)⌋ := rfl
  unfold rne
  simp only [hf, Int.floor_intCast, sub_self]
  norm_num

theorem rne_mono {x y : ℚ} (h : x ≤ y) : rne x ≤ rne y := by
  have hfl : ⌊x⌋ ≤ ⌊y⌋ := Int.floor_mono h
  rcases lt_or_eq_of_le hfl with hlt | heq
  · have := (rne_bounds x).2
    have := (rne_bounds y).1
    omega
  · have hx : x.floor = ⌊x⌋ := rfl
    have hy : y.floor = ⌊y⌋ := rfl
    unfold rne
    simp only [hx, hy, heq]
    have hd : x - (⌊y⌋ : ℚ) ≤ y - (⌊y⌋ : ℚ) := by linarith
    split_ifs <;> first | omega | (exfalso; linarith)

theorem ulp_pos (q : ℚ) : 0 < ulp q := zpow_pos (by norm_num) _

theorem roundQ_nonneg {y : ℚ} (hy : 0 ≤ y) : 0 ≤ roundQ y := by
  unfold roundQ
  have h0 : (0 : ℚ) ≤ y / ulp y := div_nonneg hy (ulp_pos y).le
  have h1 : rne ((0 : ℤ) : ℚ) ≤ rne (y / ulp y) := rne_mono (by simpa using h0)
  rw [rne_intCast] at h1
  exact mul_nonneg (by exact_mod_cast h1) (ulp_pos y).le

theorem roundQ_zero : roundQ 0 = 0 := by
  unfold roundQ
  have := rne_intCast 0
  simp only [Int.cast_zero] at this
  simp [this]

/-- Above: a positive `x` rounds to at most the next power of two. -/
theorem roundQ_le_pow {x : ℚ} (hx : 0 < x) :
    roundQ x ≤ (2 : ℚ) ^ (max (expoPos x) (-1022) + 1) := by
  have two : (2 : ℚ) ≠ 0 := by norm_num
  have habs : |x| = x := abs_of_pos hx
  have hE : expoPos x + 1 ≤ max (expoPos x) (-1022) + 1 := by
    have := le_max_left (expoPos x) (-1022); omega
  have hlt : x < (2 : ℚ) ^ (max (expoPos x) (-1022) + 1) :=
    lt_of_lt_of_le (expoPos_spec hx).2 (zpow_le_zpow_right₀ (by norm_num) hE)
  unfold roundQ ulp
  rw [habs]
  set E := max (expoPos x) (-1022) with hEdef
  have hu : (0 : ℚ) < (2 : ℚ) ^ (E - 52) := zpow_pos (by norm_num) _
  have hsplit : (2 : ℚ) ^ (E + 1) = (2 : ℚ) ^ (53 : ℕ) * (2 : ℚ) ^ (E - 52) := by
    rw [← zpow_natCast, ← zpow_add₀ two]; congr 1; ring
  have hq : x / (2 : ℚ) ^ (E - 52) ≤ (((2 : ℤ) ^ (53 : ℕ) : ℤ) : ℚ) := by
    have c : (((2 : ℤ) ^ (53 : ℕ) : ℤ) : ℚ) = (2 : ℚ) ^ (53 : ℕ) := by norm_num
    rw [div_le_iff₀ hu, c, ← hsplit]; exact hlt.le
  have hr := rne_mono hq
  rw [rne_intCast] at hr
  rw [hsplit]
  apply mul_le_mul_of_nonneg_right _ hu.le
  exact_mod_cast hr

/-- Below: a positive `x` in the normal range rounds to at least the power
of two under it. -/
theorem pow_le_roundQ {x : ℚ} (hx : 0 < x) (hn : -1022 ≤ expoPos x) :
    (2 : ℚ) ^ expoPos x ≤ roundQ x := by
  have two : (2 : ℚ) ≠ 0 := by norm_num
  have habs : |x| = x := abs_of_pos hx
  have hge : (2 : ℚ) ^ expoPos x ≤ x := (expoPos_spec hx).1
  unfold roundQ ulp
  rw [habs, max_eq_left hn]
  set E := expoPos x with hEdef
  have hu : (0 : ℚ) < (2 : ℚ) ^ (E - 52) := zpow_pos (by norm_num) _
  have hsplit : (2 : ℚ) ^ E = (2 : ℚ) ^ (52 : ℕ) * (2 : ℚ) ^ (E - 52) := by
    rw [← zpow_natCast, ← zpow_add₀ two]; congr 1; ring
  have hq : (((2 : ℤ) ^ (52 : ℕ) : ℤ) : ℚ) ≤ x / (2 : ℚ) ^ (E - 52) := by
    have c : (((2 : ℤ) ^ (52 : ℕ) : ℤ) : ℚ) = (2 : ℚ) ^ (52 : ℕ) := by norm_num
    rw [le_div_iff₀ hu, c, ← hsplit]; exact hge
  have hr := rne_mono hq
  rw [rne_intCast] at hr
  rw [hsplit]
  apply mul_le_mul_of_nonneg_right _ hu.le
  exact_mod_cast hr

/-- Rounding is monotone on the non-negative rationals. -/
theorem roundQ_mono {x y : ℚ} (hx : 0 ≤ x) (hxy : x ≤ y) : roundQ x ≤ roundQ y := by
  rcases eq_or_lt_of_le hx with h0 | hpos
  · rw [← h0, roundQ_zero]; exact roundQ_nonneg (le_trans hx hxy)
  · have hy : 0 < y := lt_of_lt_of_le hpos hxy
    have hem := expoPos_mono hpos hxy
    have hE : max (expoPos x) (-1022) ≤ max (expoPos y) (-1022) := max_le_max hem le_rfl
    rcases eq_or_lt_of_le hE with heq | hlt
    · have hu : ulp x = ulp y := by
        unfold ulp; rw [abs_of_pos hpos, abs_of_pos hy, heq]
      unfold roundQ
      rw [hu]
      apply mul_le_mul_of_nonneg_right _ (ulp_pos y).le
      have : rne (x / ulp y) ≤ rne (y / ulp y) :=
        rne_mono (div_le_div_of_nonneg_right hxy (ulp_pos y).le)
      exact_mod_cast this
    · have hn : -1022 ≤ expoPos y := by
        by_contra hc
        have h1 : max (expoPos y) (-1022) = -1022 := max_eq_right (by omega)
        have h2 := le_max_right (expoPos x) (-1022)
        omega
      have h3 : max (expoPos x) (-1022) + 1 ≤ expoPos y := by
        rw [max_eq_left hn] at hlt; omega
      calc roundQ x ≤ (2 : ℚ) ^ (max (expoPos x) (-1022) + 1) := roundQ_le_pow hpos
        _ ≤ (2 : ℚ) ^ expoPos y := zpow_le_zpow_right₀ (by norm_num) h3
        _ ≤ roundQ y := pow_le_roundQ hy hn

theorem ofRat_of_lt {q : ℚ} (h : |roundQ q| < (2 : ℚ) ^ (1024 : ℕ)) :
    F64.ofRat q = F64.fin (roundQ q) := by
  unfold F64.ofRat
  simp only [not_le.mpr h, if_false]

/-- A value between two non-negative binary64 numbers rounds to a finite
value between them. -/
theorem ofRat_between {q lo hi : ℚ} (h0 : 0 ≤ lo) (h1 : lo ≤ q) (h2 : q ≤ hi)
    (rl : roundQ lo = lo) (rh : roundQ hi = hi) (hh : hi < (2 : ℚ) ^ (1024 : ℕ)) :
    F64.ofRat q = F64.fin (roundQ q) ∧ lo ≤ roundQ q ∧ roundQ q ≤ hi := by
  have a : lo ≤ roundQ q := by
    have := roundQ_mono h0 h1
    rwa [rl] at this
  have b : roundQ q ≤ hi := by
    have := roundQ_mono (le_trans h0 h1) h2
    rwa [rh] at this
  refine ⟨ofRat_of_lt ?_, a, b⟩
  rw [abs_of_nonneg (le_trans h0 a)]
  exact lt_of_le_of_lt b hh

theorem roundQ_one : roundQ 1 = 1 := by decide!

theorem roundQ_hundred : roundQ 100 = 100 := by decide!

theorem roundQ_two_pow_64 : roundQ ((2 : ℚ) ^ (64 : ℕ)) = (2 : ℚ) ^ (64 : ℕ) := by decide!

theorem two_pow_64_lt : (2 : ℚ) ^ (64 : ℕ) < (2 : ℚ) ^ (1024 : ℕ) := by norm_num

/-- Conversion of an unsigned 64-bit integer is finite, monotone data. -/
theorem ofNat_fin {n : Nat} (h : n < 2 ^ 64) :
    F64.ofNat n = F64.fin (roundQ n) ∧ 0 ≤ roundQ (n : ℚ) ∧ roundQ (n : ℚ) ≤ (2 : ℚ) ^ (64 : ℕ) := by
  have hq : (n : ℚ) ≤ (2 : ℚ) ^ (64 : ℕ) := by exact_mod_cast h.le
  exact ofRat_between le_rfl (Nat.cast_nonneg n) hq roundQ_zero roundQ_two_pow_64 two_pow_64_lt

theorem one_le_roundQ_natCast {n : Nat} (h : 1 ≤ n) : 1 ≤ roundQ (n : ℚ) := by
  have hq : (1 : ℚ) ≤ (n : ℚ) := by exact_mod_cast h
  have := roundQ_mono zero_le_one hq
  rwa [roundQ_one] at this

theorem subU64_of_le {a b : Nat} (hb : b ≤ a) (ha : a < 2 ^ 64) : subU64 a b = a - b := by
  unfold subU64
  omega

theorem subU64_of_lt {a b : Nat} (hab : a < b) (hb : b < 2 ^ 64) :
    subU64 a b = 2 ^ 64 - (b - a) := by
  unfold subU64
  omega

/-- The guarded usage formula on two deltas with `0 ≤ di ≤ dt`, `0 < dt`. -/
theorem usage_range {di dt : Nat} (hd : di ≤ dt) (h1 : 1 ≤ dt) (h2 : dt < 2 ^ 64) :
    ∃ v : ℚ, F64.mul (F64.sub (F64.fin 1) (F64.div (F64.ofNat di) (F64.ofNat dt)))
        (F64.fin 100) = F64.fin v ∧ 0 ≤ v ∧ v ≤ 100 ∧ (di = dt → v = 0) ∧ (di = 0 → v = 100) := by
  obtain ⟨ea, a0, _⟩ := ofNat_fin (lt_of_le_of_lt hd h2)
  obtain ⟨eb, _, _⟩ := ofNat_fin h2
  have b1 : 1 ≤ roundQ (dt : ℚ) := one_le_roundQ_natCast h1
  have bne : roundQ (dt : ℚ) ≠ 0 := by linarith
  have bpos : 0 < roundQ (dt : ℚ) := by linarith
  have ab : roundQ (di : ℚ) ≤ roundQ (dt : ℚ) :=
    roundQ_mono (Nat.cast_nonneg di) (by exact_mod_cast hd)
  have one_lt : (1 : ℚ) < (2 : ℚ) ^ (1024 : ℕ) := by norm_num
  have hundred_lt : (100 : ℚ) < (2 : ℚ) ^ (1024 : ℕ) := by norm_num
  obtain ⟨e1, l1, u1⟩ := ofRat_between (q := roundQ (di : ℚ) / roundQ (dt : ℚ)) le_rfl
    (div_nonneg a0 bpos.le) ((div_le_one bpos).mpr ab) roundQ_zero roundQ_one one_lt
  set r1 := roundQ (roundQ (di : ℚ) / roundQ (dt : ℚ)) with hr1
  obtain ⟨e2, l2, u2⟩ := ofRat_between (q := 1 + -r1) le_rfl (by linarith) (by linarith)
    roundQ_zero roundQ_one one_lt
  set r2 := roundQ (1 + -r1) with hr2
  obtain ⟨e3, l3, u3⟩ := ofRat_between (q := r2 * 100) le_rfl (by linarith) (by linarith)
    roundQ_zero roundQ_hundred hundred_lt
  refine ⟨roundQ (r2 * 100), ?_, l3, u3, ?_, ?_⟩
  · rw [ea, eb]
    simp only [F64.div, bne, if_false, e1, F64.sub, F64.neg, F64.add, e2, F64.mul, e3]
  · intro h
    have : r1 = 1 := by
      rw [hr1, h, div_self bne, roundQ_one]
    have : r2 = 0 := by
      rw [hr2, this]; norm_num [roundQ_zero]
    rw [this]; norm_num [roundQ_zero]
  · intro h
    have : r1 = 0 := by
      rw [hr1, h]; norm_num [roundQ_zero]
    have : r2 = 1 := by
      rw [hr2, this]; norm_num [roundQ_one]
    rw [this]; norm_num [roundQ_hundred]

theorem lt_zero_ofNat {n : Nat} (h1 : 1 ≤ n) (h2 : n < 2 ^ 64) :
    F64.lt (F64.fin 0) (F64.ofNat n) = true := by
  rw [(ofNat_fin h2).1]
  have := one_le_roundQ_natCast h1
  simp only [F64.lt, decide_eq_true_eq]
  linarith

/-- What a tick with a successful CPU sample stores as cpu usage. -/
theorem tick_cpuUsage_eq (interval : Int) (net : Sample) (s : Sampler) (idle total : Nat) :
    (tick interval (some (idle, total)) net s).lc.cpuUsage =
      if F64.lt (F64.fin 0) (F64.ofNat (subU64 total s.prevTotal)) then
        F64.mul (F64.sub (F64.fin 1) (F64.div (F64.ofNat (subU64 idle s.prevIdle))
          (F64.ofNat (subU64 total s.prevTotal)))) (F64.fin 100)
      else F64.fin 0 := by
  simp [tick]

theorem roundQ_two_pow_34 : roundQ ((2 : ℚ) ^ (34 : ℕ)) = (2 : ℚ) ^ (34 : ℕ) := by decide!

theorem roundQ_two_pow_35 : roundQ ((2 : ℚ) ^ (35 : ℕ)) = (2 : ℚ) ^ (35 : ℕ) := by decide!

theorem roundQ_two_pow_30 : roundQ ((2 : ℚ) ^ (30 : ℕ)) = (2 : ℚ) ^ (30 : ℕ) := by decide!

theorem roundQ_two_pow_99 : roundQ ((2 : ℚ) ^ (99 : ℕ)) = (2 : ℚ) ^ (99 : ℕ) := by decide!

theorem roundQ_inv_two_pow_30 : roundQ (1 / (2 : ℚ) ^ (30 : ℕ)) = 1 / (2 : ℚ) ^ (30 : ℕ) := by
  decide!

theorem roundQ_inv_two_pow_35 : roundQ (1 / (2 : ℚ) ^ (35 : ℕ)) = 1 / (2 : ℚ) ^ (35 : ℕ) := by
  decide!

theorem roundQ_inv_two_pow_45 : roundQ (1 / (2 : ℚ) ^ (45 : ℕ)) = 1 / (2 : ℚ) ^ (45 : ℕ) := by
  decide!

/-- A positive 64-bit duration has a finite positive number of seconds. -/
theorem seconds_pos {d : Int} (h0 : 0 < d) (h1 : d < 2 ^ 63) :
    ∃ v : ℚ, seconds d = F64.fin v ∧ 1 / (2 : ℚ) ^ (30 : ℕ) ≤ v ∧ v ≤ (2 : ℚ) ^ (35 : ℕ) := by
  have hdiv : Int.tdiv d 1000000000 = d / 1000000000 :=
    Int.tdiv_eq_ediv h0.le (by norm_num)
  have hmod : Int.tmod d 1000000000 = d % 1000000000 :=
    Int.tmod_eq_emod h0.le (by norm_num)
  have s0 : 0 ≤ d / 1000000000 := Int.ediv_nonneg h0.le (by norm_num)
  have s1 : d / 1000000000 ≤ 2 ^ 34 := by omega
  have n0 : 0 ≤ d % 1000000000 := Int.emod_nonneg d (by norm_num)
  have n1 : d % 1000000000 ≤ 2 ^ 30 := by
    have := Int.emod_lt_of_pos d (by norm_num : (0 : Int) < 1000000000)
    omega
  have big34 : (2 : ℚ) ^ (34 : ℕ) < (2 : ℚ) ^ (1024 : ℕ) := by norm_num
  have big30 : (2 : ℚ) ^ (30 : ℕ) < (2 : ℚ) ^ (1024 : ℕ) := by norm_num
  have big35 : (2 : ℚ) ^ (35 : ℕ) < (2 : ℚ) ^ (1024 : ℕ) := by norm_num
  have one_lt : (1 : ℚ) < (2 : ℚ) ^ (1024 : ℕ) := by norm_num
  obtain ⟨ea, la, ua⟩ := ofRat_between (q := ((d / 1000000000 : Int) : ℚ)) le_rfl
    (by exact_mod_cast s0) (by exact_mod_cast s1) roundQ_zero roundQ_two_pow_34 big34
  obtain ⟨eb, lb, ub⟩ := ofRat_between (q := ((d % 1000000000 : Int) : ℚ)) le_rfl
    (by exact_mod_cast n0) (by exact_mod_cast n1) roundQ_zero roundQ_two_pow_30 big30
  set a := roundQ ((d / 1000000000 : Int) : ℚ) with ha
  set b := roundQ ((d % 1000000000 : Int) : ℚ) with hb
  have hc1 : b / 1000000000 ≤ (2 : ℚ) ^ (30 : ℕ) := by
    have : b / 1000000000 ≤ b := div_le_self lb (by norm_num)
    linarith
  obtain ⟨ec, lc, uc⟩ := ofRat_between (q := b / 1000000000) le_rfl
    (div_nonneg lb (by norm_num)) hc1 roundQ_zero roundQ_two_pow_30 big30
  set c := roundQ (b / 1000000000) with hc
  have hsum : 1 / (2 : ℚ) ^ (30 : ℕ) ≤ a + c := by
    by_cases hs : 1 ≤ d / 1000000000
    · have : (1 : ℚ) ≤ a := by
        have h := roundQ_mono zero_le_one
          (by exact_mod_cast hs : (1 : ℚ) ≤ ((d / 1000000000 : Int) : ℚ))
        rwa [roundQ_one] at h
      have : 1 / (2 : ℚ) ^ (30 : ℕ) ≤ 1 := by norm_num
      linarith
    · have hn : 1 ≤ d % 1000000000 := by omega
      have hb1 : (1 : ℚ) ≤ b := by
        have h := roundQ_mono zero_le_one
          (by exact_mod_cast hn : (1 : ℚ) ≤ ((d % 1000000000 : Int) : ℚ))
        rwa [roundQ_one] at h
      have hq : 1 / (2 : ℚ) ^ (30 : ℕ) ≤ b / 1000000000 := by
        rw [le_div_iff₀ (by norm_num)]
        have : 1 / (2 : ℚ) ^ (30 : ℕ) * 1000000000 ≤ 1 := by norm_num
        linarith
      have h := roundQ_mono (by norm_num) hq
      rw [roundQ_inv_two_pow_30] at h
      linarith
  have hsum2 : a + c ≤ (2 : ℚ) ^ (35 : ℕ) := by
    have : (2 : ℚ) ^ (34 : ℕ) + (2 : ℚ) ^ (30 : ℕ) ≤ (2 : ℚ) ^ (35 : ℕ) := by norm_num
    linarith
  obtain ⟨ed, ld, ud⟩ := ofRat_between (q := a + c) (by norm_num) hsum hsum2
    roundQ_inv_two_pow_30 roundQ_two_pow_35 big35
  refine ⟨roundQ (a + c), ?_, ld, ud⟩
  unfold seconds
  simp only [hdiv, hmod, F64.ofInt, ea, eb]
  have ne : (1000000000 : ℚ) ≠ 0 := by norm_num
  simp only [F64.div, ne, if_false, ec, F64.add, ed]

/-- The rate computed from a positive 64-bit delta over a positive interval
is a finite positive value. -/
theorem rate_pos {n : Nat} {d : Int} (hn1 : 1 ≤ n) (hn2 : n < 2 ^ 64)
    (h0 : 0 < d) (h1 : d < 2 ^ 63) :
    ∃ v : ℚ, F64.div (F64.div (F64.ofNat n) (seconds d)) (F64.fin 1024) = F64.fin v ∧ 0 < v := by
  obtain ⟨w, hw, lw, uw⟩ := seconds_pos h0 h1
  obtain ⟨ea, _, ua⟩ := ofNat_fin hn2
  have la := one_le_roundQ_natCast hn1
  set a := roundQ (n : ℚ) with ha
  have wpos : 0 < w := lt_of_lt_of_le (by norm_num) lw
  have big99 : (2 : ℚ) ^ (99 : ℕ) < (2 : ℚ) ^ (1024 : ℕ) := by norm_num
  have q1 : 1 / (2 : ℚ) ^ (35 : ℕ) ≤ a / w := by
    rw [le_div_iff₀ wpos]
    have : 1 / (2 : ℚ) ^ (35 : ℕ) * w ≤ 1 / (2 : ℚ) ^ (35 : ℕ) * (2 : ℚ) ^ (35 : ℕ) :=
      mul_le_mul_of_nonneg_left uw (by norm_num)
    have e : 1 / (2 : ℚ) ^ (35 : ℕ) * (2 : ℚ) ^ (35 : ℕ) = 1 := by norm_num
    linarith
  have q2 : a / w ≤ (2 : ℚ) ^ (99 : ℕ) := by
    rw [div_le_iff₀ wpos]
    have : (2 : ℚ) ^ (99 : ℕ) * (1 / (2 : ℚ) ^ (30 : ℕ)) ≤ (2 : ℚ) ^ (99 : ℕ) * w :=
      mul_le_mul_of_nonneg_left lw (by norm_num)
    have e : (2 : ℚ) ^ (64 : ℕ) ≤ (2 : ℚ) ^ (99 : ℕ) * (1 / (2 : ℚ) ^ (30 : ℕ)) := by norm_num
    linarith
  obtain ⟨e1, l1, u1⟩ := ofRat_between (q := a / w) (by norm_num) q1 q2
    roundQ_inv_two_pow_35 roundQ_two_pow_99 big99
  set r := roundQ (a / w) with hr
  have q3 : 1 / (2 : ℚ) ^ (45 : ℕ) ≤ r / 1024 := by
    rw [le_div_iff₀ (by norm_num)]
    have e : 1 / (2 : ℚ) ^ (45 : ℕ) * 1024 = 1 / (2 : ℚ) ^ (35 : ℕ) := by norm_num
    linarith
  have q4 : r / 1024 ≤ (2 : ℚ) ^ (99 : ℕ) := by
    have : r / 1024 ≤ r := div_le_self (le_trans (by norm_num) l1) (by norm_num)
    linarith
  obtain ⟨e2, l2, _⟩ := ofRat_between (q := r / 1024) (by norm_num) q3 q4
    roundQ_inv_two_pow_45 roundQ_two_pow_99 big99
  refine ⟨roundQ (r / 1024), ?_, lt_of_lt_of_le (by norm_num) l2⟩
  have wne : w ≠ 0 := wpos.ne'
  have kne : (1024 : ℚ) ≠ 0 := by norm_num
  rw [ea, hw]
  simp only [F64.div, wne, kne, if_false, e1, e2]

/-- What a tick with a successful network sample stores as rates. -/
theorem tick_netRate_eq (interval : Int) (cpu : Sample) (s : Sampler) (rx tx : Nat) :
    (tick interval cpu (some (rx, tx)) s).lc.netRxRateKB =
        F64.div (F64.div (F64.ofNat (subU64 rx s.prevRx)) (seconds interval)) (F64.fin 1024) ∧
      (tick interval cpu (some (rx, tx)) s).lc.netTxRateKB =
        F64.div (F64.div (F64.ofNat (subU64 tx s.prevTx)) (seconds interval)) (F64.fin 1024) := by
  simp [tick]

/-! ## The sampling tick: CPU usage -/

/-- C1: with `total_now > total_prev` and `idle_now ≥ idle_prev` (unsigned
64-bit counters), a tick whose CPU sample succeeds stores
`(1 - (idle_now - idle_prev) / (total_now - total_prev)) * 100`, computed in
`float64`; idle 100 → 110 and total 1000 → 1100 stores exactly 90. -/
theorem tick_cpu_usage_formula (interval : Int) (net : Sample) (s : Sampler) (idle total : Nat)
    (hi : idle < 2 ^ 64) (ht : total < 2 ^ 64)
    (hpi : s.prevIdle ≤ idle) (hpt : s.prevTotal < total) :
    (tick interval (some (idle, total)) net s).lc.cpuUsage =
        F64.mul (F64.sub (F64.fin 1) (F64.div (F64.ofNat (idle - s.prevIdle))
          (F64.ofNat (total - s.prevTotal)))) (F64.fin 100) ∧
      (tick 1000000000 (some (110, 1100)) none ⟨100, 1000, 0, 0, NewCollector⟩).lc.cpuUsage =
        F64.fin 90 := by
  refine ⟨?_, by decide!⟩
  rw [tick_cpuUsage_eq, subU64_of_le hpi hi, subU64_of_le hpt.le ht,
    lt_zero_ofNat (by omega) (by omega)]
  simp

/-- An instance of the usage formula: idle 100 → 110, total 1000 → 1100. -/
theorem tick_cpu_usage_formula_witness :
    (110 < 2 ^ 64 ∧ 1100 < 2 ^ 64 ∧ 100 ≤ 110 ∧ 1000 < 1100) ∧
      (tick 1000000000 (some (110, 1100)) none ⟨100, 1000, 0, 0, NewCollector⟩).lc.cpuUsage =
        F64.mul (F64.sub (F64.fin 1) (F64.div (F64.ofNat (110 - 100))
          (F64.ofNat (1100 - 1000)))) (F64.fin 100) :=
  ⟨by decide, (tick_cpu_usage_formula 1000000000 none ⟨100, 1000, 0, 0, NewCollector⟩ 110 1100
    (by decide) (by decide) (by decide) (by decide)).1⟩

/-- C2, as stated, fails: after a counter reset (total 1000 → 500, idle
unchanged) the unsigned difference wraps to a positive number, the guard
passes and the tick stores 100, not 0. -/
theorem tick_cpu_reset_not_zero :
    (500 : Nat) ≤ 1000 ∧
      (tick 1000000000 (some (100, 500)) none ⟨100, 1000, 0, 0, NewCollector⟩).lc.cpuUsage =
        F64.fin 100 ∧
      (tick 1000000000 (some (100, 500)) none ⟨100, 1000, 0, 0, NewCollector⟩).lc.cpuUsage ≠
        F64.fin 0 := by
  decide!

/-- C2, amended: with `total_now = total_prev` the tick stores cpu usage 0;
with `total_now < total_prev` the unsigned 64-bit difference wraps to
`2 ^ 64 - (total_prev - total_now)`, whose conversion to `float64` is
positive, so the guard passes and the tick stores the value computed from
the wrapped differences instead of a value fixed at 0. That computed value
depends on the samples: from (idle 100, total 1000) it is 100 at
(100, 500) and 0 at (50, 500), where both differences round to `2 ^ 64`. -/
theorem tick_cpu_nonpositive_delta (interval : Int) (net : Sample) (s : Sampler)
    (idle total : Nat) (hp : s.prevTotal < 2 ^ 64) :
    (total = s.prevTotal → (tick interval (some (idle, total)) net s).lc.cpuUsage = F64.fin 0) ∧
      (total < s.prevTotal →
        F64.lt (F64.fin 0) (F64.ofNat (subU64 total s.prevTotal)) = true ∧
        subU64 total s.prevTotal = 2 ^ 64 - (s.prevTotal - total) ∧
        (tick interval (some (idle, total)) net s).lc.cpuUsage =
          F64.mul (F64.sub (F64.fin 1) (F64.div (F64.ofNat (subU64 idle s.prevIdle))
            (F64.ofNat (2 ^ 64 - (s.prevTotal - total))))) (F64.fin 100)) ∧
      (tick 1000000000 (some (100, 500)) none ⟨100, 1000, 0, 0, NewCollector⟩).lc.cpuUsage =
        F64.fin 100 ∧
      (tick 1000000000 (some (50, 500)) none ⟨100, 1000, 0, 0, NewCollector⟩).lc.cpuUsage =
        F64.fin 0 := by
  refine ⟨?_, ?_, by decide!, by decide!⟩
  · intro h
    have h0 : subU64 total s.prevTotal = 0 := by
      rw [h, subU64_of_le le_rfl hp]; omega
    have hz : F64.ofNat 0 = F64.fin 0 := by decide!
    rw [tick_cpuUsage_eq, h0, hz]
    simp [F64.lt]
  · intro h
    have hg : F64.lt (F64.fin 0) (F64.ofNat (2 ^ 64 - (s.prevTotal - total))) = true :=
      lt_zero_ofNat (by omega) (by omega)
    refine ⟨?_, subU64_of_lt h hp, ?_⟩
    · rw [subU64_of_lt h hp]; exact hg
    · rw [tick_cpuUsage_eq, subU64_of_lt h hp, hg]
      simp

/-- An instance of the wrapped case: total 1000 → 500 with idle unchanged. -/
theorem tick_cpu_nonpositive_delta_witness :
    ((1000 : Nat) < 2 ^ 64 ∧ (500 : Nat) < 1000) ∧
      (tick 1000000000 (some (100, 500)) none ⟨100, 1000, 0, 0, NewCollector⟩).lc.cpuUsage =
        F64.mul (F64.sub (F64.fin 1) (F64.div (F64.ofNat (subU64 100 100))
          (F64.ofNat (2 ^ 64 - (1000 - 500))))) (F64.fin 100) :=
  ⟨by decide, ((tick_cpu_nonpositive_delta 1000000000 none ⟨100, 1000, 0, 0, NewCollector⟩
    100 500 (by decide)).2.1 (by decide)).2.2⟩

/-- C3: with `Δtotal > 0` and `0 ≤ Δidle ≤ Δtotal` the stored cpu usage is a
finite value in `[0, 100]`, exactly 0 when `Δidle = Δtotal` and exactly 100
when `Δidle = 0`. -/
theorem tick_cpu_usage_range (interval : Int) (net : Sample) (s : Sampler) (idle total : Nat)
    (hi : idle < 2 ^ 64) (ht : total < 2 ^ 64)
    (hpi : s.prevIdle ≤ idle) (hpt : s.prevTotal < total)
    (hd : idle - s.prevIdle ≤ total - s.prevTotal) :
    ∃ v : ℚ, (tick interval (some (idle, total)) net s).lc.cpuUsage = F64.fin v ∧
      0 ≤ v ∧ v ≤ 100 ∧
      (idle - s.prevIdle = total - s.prevTotal → v = 0) ∧
      (idle - s.prevIdle = 0 → v = 100) := by
  obtain ⟨v, hv, h0, h100, hz, hf⟩ :=
    usage_range hd (by omega : 1 ≤ total - s.prevTotal) (by omega)
  refine ⟨v, ?_, h0, h100, hz, hf⟩
  rw [tick_cpuUsage_eq, subU64_of_le hpi hi, subU64_of_le hpt.le ht,
    lt_zero_ofNat (by omega) (by omega)]
  simpa using hv

/-- An instance of the range: idle 100 → 130, total 1000 → 1100. -/
theorem tick_cpu_usage_range_witness :
    (130 < 2 ^ 64 ∧ 1100 < 2 ^ 64 ∧ 100 ≤ 130 ∧ 1000 < 1100 ∧ 130 - 100 ≤ 1100 - 1000) ∧
      ∃ v : ℚ, (tick 1000000000 (some (130, 1100)) none
          ⟨100, 1000, 0, 0, NewCollector⟩).lc.cpuUsage = F64.fin v ∧
        0 ≤ v ∧ v ≤ 100 ∧ (130 - 100 = 1100 - 1000 → v = 0) ∧ (130 - 100 = 0 → v = 100) :=
  ⟨by decide, tick_cpu_usage_range 1000000000 none ⟨100, 1000, 0, 0, NewCollector⟩ 130 1100
    (by decide) (by decide) (by decide) (by decide) (by decide)⟩

/-- C4: a tick as a step on (previous CPU sample, previous network sample,
cached cpu usage, cached rx rate, cached tx rate). A failed CPU sample leaves
the cpu usage and the previous CPU sample alone while the network part is
updated; a failed network sample leaves the rates and the previous network
sample alone while the CPU baseline is updated; two failures leave the whole
state unchanged. -/
theorem tick_frame (interval : Int) (s : Sampler) (idle total rx tx : Nat) :
    ((tick interval none (some (rx, tx)) s).lc.cpuUsage = s.lc.cpuUsage ∧
      (tick interval none (some (rx, tx)) s).prevIdle = s.prevIdle ∧
      (tick interval none (some (rx, tx)) s).prevTotal = s.prevTotal ∧
      (tick interval none (some (rx, tx)) s).prevRx = rx ∧
      (tick interval none (some (rx, tx)) s).prevTx = tx ∧
      (tick interval none (some (rx, tx)) s).lc.netRxRateKB =
        F64.div (F64.div (F64.ofNat (subU64 rx s.prevRx)) (seconds interval)) (F64.fin 1024) ∧
      (tick interval none (some (rx, tx)) s).lc.netTxRateKB =
        F64.div (F64.div (F64.ofNat (subU64 tx s.prevTx)) (seconds interval)) (F64.fin 1024)) ∧
    ((tick interval (some (idle, total)) none s).lc.netRxRateKB = s.lc.netRxRateKB ∧
      (tick interval (some (idle, total)) none s).lc.netTxRateKB = s.lc.netTxRateKB ∧
      (tick interval (some (idle, total)) none s).prevRx = s.prevRx ∧
      (tick interval (some (idle, total)) none s).prevTx = s.prevTx ∧
      (tick interval (some (idle, total)) none s).prevIdle = idle ∧
      (tick interval (some (idle, total)) none s).prevTotal = total) ∧
    tick interval none none s = s := by
  refine ⟨?_, ?_, ?_⟩ <;> simp [tick]

/-! ## The sampling tick: network rates -/

/-- C6: for a positive interval, a tick whose network sample succeeds stores
`(rx_now - rx_prev) / dt / 1024` as rx rate whenever `rx_now ≥ rx_prev`,
whatever the tx counters do, and the same formula on the tx counters as tx
rate whenever `tx_now ≥ tx_prev`, whatever the rx counters do; `dt` is the
finite positive `interval.Seconds()`; rx 0 → 10240 over one second stores
exactly 10. -/
theorem tick_net_rate_formula (interval : Int) (cpu : Sample) (s : Sampler) (rx tx : Nat)
    (h0 : 0 < interval) (h1 : interval < 2 ^ 63) :
    (∃ dt : ℚ, seconds interval = F64.fin dt ∧ 0 < dt) ∧
      (s.prevRx ≤ rx → rx < 2 ^ 64 →
        (tick interval cpu (some (rx, tx)) s).lc.netRxRateKB =
          F64.div (F64.div (F64.ofNat (rx - s.prevRx)) (seconds interval)) (F64.fin 1024)) ∧
      (s.prevTx ≤ tx → tx < 2 ^ 64 →
        (tick interval cpu (some (rx, tx)) s).lc.netTxRateKB =
          F64.div (F64.div (F64.ofNat (tx - s.prevTx)) (seconds interval)) (F64.fin 1024)) ∧
      seconds 1000000000 = F64.fin 1 ∧
      (tick 1000000000 none (some (10240, 0)) ⟨0, 0, 0, 0, NewCollector⟩).lc.netRxRateKB =
        F64.fin 10 := by
  obtain ⟨w, hw, lw, _⟩ := seconds_pos h0 h1
  obtain ⟨a, b⟩ := tick_netRate_eq interval cpu s rx tx
  refine ⟨⟨w, hw, lt_of_lt_of_le (by norm_num) lw⟩, ?_, ?_, by decide!, by decide!⟩
  · intro hprx hrx
    rw [subU64_of_le hprx hrx] at a
    exact a
  · intro hptx htx
    rw [subU64_of_le hptx htx] at b
    exact b

/-- An instance of the rate formula: rx 0 → 10240 over one second while the
tx counter goes back from 5 to 3. -/
theorem tick_net_rate_formula_witness :
    ((0 : Int) < 1000000000 ∧ (1000000000 : Int) < 2 ^ 63 ∧ 0 ≤ 10240 ∧ 10240 < 2 ^ 64) ∧
      (tick 1000000000 none (some (10240, 3)) ⟨0, 0, 0, 5, NewCollector⟩).lc.netRxRateKB =
        F64.div (F64.div (F64.ofNat (10240 - 0)) (seconds 1000000000)) (F64.fin 1024) :=
  ⟨by decide, (tick_net_rate_formula 1000000000 none ⟨0, 0, 0, 5, NewCollector⟩ 10240 3
    (by decide) (by decide)).2.1 (by decide) (by decide)⟩

/-- C7, as stated, fails: after a counter reset (rx 10240 → 0) over one
second the unsigned difference wraps and the stored rx rate is the positive
number `2 ^ 54 - 10`, not a negative one. -/
theorem tick_net_reset_not_negative :
    (0 : Nat) < 10240 ∧
      (tick 1000000000 none (some (0, 0)) ⟨0, 0, 10240, 0, NewCollector⟩).lc.netRxRateKB =
        F64.fin (2 ^ 54 - 10) ∧
      F64.lt (tick 1000000000 none (some (0, 0)) ⟨0, 0, 10240, 0, NewCollector⟩).lc.netRxRateKB
        (F64.fin 0) = false := by
  decide!

/-- C7, amended: with `rx_now < rx_prev` and a positive interval the
unsigned 64-bit difference wraps to `2 ^ 64 - (rx_prev - rx_now)` and the
stored rx rate is that number divided by the seconds and by 1024, a finite
positive value; the same holds for tx. -/
theorem tick_net_rate_wrap (interval : Int) (cpu : Sample) (s : Sampler) (rx tx : Nat)
    (h0 : 0 < interval) (h1 : interval < 2 ^ 63) :
    (rx < s.prevRx → s.prevRx < 2 ^ 64 →
      (tick interval cpu (some (rx, tx)) s).lc.netRxRateKB =
        F64.div (F64.div (F64.ofNat (2 ^ 64 - (s.prevRx - rx))) (seconds interval))
          (F64.fin 1024) ∧
      ∃ v : ℚ, (tick interval cpu (some (rx, tx)) s).lc.netRxRateKB = F64.fin v ∧ 0 < v) ∧
    (tx < s.prevTx → s.prevTx < 2 ^ 64 →
      (tick interval cpu (some (rx, tx)) s).lc.netTxRateKB =
        F64.div (F64.div (F64.ofNat (2 ^ 64 - (s.prevTx - tx))) (seconds interval))
          (F64.fin 1024) ∧
      ∃ v : ℚ, (tick interval cpu (some (rx, tx)) s).lc.netTxRateKB = F64.fin v ∧ 0 < v) := by
  obtain ⟨a, b⟩ := tick_netRate_eq interval cpu s rx tx
  constructor
  · intro hlt hp
    rw [subU64_of_lt hlt hp] at a
    obtain ⟨v, hv, hpos⟩ :=
      rate_pos (n := 2 ^ 64 - (s.prevRx - rx)) (by omega) (by omega) h0 h1
    exact ⟨a, v, a.trans hv, hpos⟩
  · intro hlt hp
    rw [subU64_of_lt hlt hp] at b
    obtain ⟨v, hv, hpos⟩ :=
      rate_pos (n := 2 ^ 64 - (s.prevTx - tx)) (by omega) (by omega) h0 h1
    exact ⟨b, v, b.trans hv, hpos⟩

/-- An instance of the wrapped rate: rx 10240 → 0 over one second. -/
theorem tick_net_rate_wrap_witness :
    ((0 : Int) < 1000000000 ∧ (1000000000 : Int) < 2 ^ 63 ∧ 0 < 10240 ∧ 10240 < 2 ^ 64) ∧
      ∃ v : ℚ, (tick 1000000000 none (some (0, 0))
        ⟨0, 0, 10240, 0, NewCollector⟩).lc.netRxRateKB = F64.fin v ∧ 0 < v :=
  ⟨by decide, ((tick_net_rate_wrap 1000000000 none ⟨0, 0, 10240, 0, NewCollector⟩ 0 0
    (by decide) (by decide)).1 (by decide) (by decide)).2⟩

/-! ## The raw readers -/

/-- The scan loop of `getMemAndSwapUsage` leaves in its four variables the
values of the four keys. -/
theorem foldl_memLine (pf : FloatReader) (lines : List String) :
    lines.foldl (memLine pf) ⟨F64.fin 0, F64.fin 0, F64.fin 0, F64.fin 0⟩ =
      ⟨memField pf "MemTotal:" lines, memField pf "MemAvailable:" lines,
        memField pf "SwapTotal:" lines, memField pf "SwapFree:" lines⟩ := by
  induction lines using List.reverseRecOn with
  | nil => simp [memField]
  | append_singleton l a ih =>
    rw [List.foldl_append, ih]
    simp only [List.foldl_cons, List.foldl_nil, memLine, memField, List.reverse_append,
      List.reverse_cons, List.reverse_nil, List.nil_append, List.singleton_append,
      List.find?_cons]
    rcases hf : fields a with _ | ⟨k, _ | ⟨num, rest⟩⟩
    · simp
    · simp
    · by_cases h1 : k = "MemTotal:"
      · subst h1; simp [hf]
      · by_cases h2 : k = "MemAvailable:"
        · subst h2; simp [hf]
        · by_cases h3 : k = "SwapTotal:"
          · subst h3; simp [hf]
          · by_cases h4 : k = "SwapFree:"
            · subst h4; simp [hf]
            · simp [hf, h1, h2, h3, h4]

/-- C9: for every readable memory summary, `getMemAndSwapUsage` succeeds
with mem usage `(MemTotal - MemAvailable) / MemTotal * 100` when
`MemTotal > 0` and swap usage `(SwapTotal - SwapFree) / SwapTotal * 100` when
`SwapTotal > 0`, each 0 otherwise; a `SwapTotal` of 0 gives swap usage 0
whatever `SwapFree` is; `MemTotal = 1000`, `MemAvailable = 250` gives 75. -/
theorem getMemAndSwapUsage_formula (pf : FloatReader) (lines : List String) :
    getMemAndSwapUsage pf (some lines) = some
        (if F64.lt (F64.fin 0) (memField pf "MemTotal:" lines) then
          F64.mul (F64.div (F64.sub (memField pf "MemTotal:" lines)
            (memField pf "MemAvailable:" lines)) (memField pf "MemTotal:" lines)) (F64.fin 100)
         else F64.fin 0,
         if F64.lt (F64.fin 0) (memField pf "SwapTotal:" lines) then
          F64.mul (F64.div (F64.sub (memField pf "SwapTotal:" lines)
            (memField pf "SwapFree:" lines)) (memField pf "SwapTotal:" lines)) (F64.fin 100)
         else F64.fin 0) ∧
      (memField pf "SwapTotal:" lines = F64.fin 0 →
        ∃ mem : F64, getMemAndSwapUsage pf (some lines) = some (mem, F64.fin 0)) ∧
      getMemAndSwapUsage readDecimal (some ["MemTotal:       1000 kB", "MemFree: 100 kB",
        "MemAvailable:    250 kB", "SwapTotal: 0 kB", "SwapFree: 123 kB"]) =
        some (F64.fin 75, F64.fin 0) := by
  have key : getMemAndSwapUsage pf (some lines) = some
        (if F64.lt (F64.fin 0) (memField pf "MemTotal:" lines) then
          F64.mul (F64.div (F64.sub (memField pf "MemTotal:" lines)
            (memField pf "MemAvailable:" lines)) (memField pf "MemTotal:" lines)) (F64.fin 100)
         else F64.fin 0,
         if F64.lt (F64.fin 0) (memField pf "SwapTotal:" lines) then
          F64.mul (F64.div (F64.sub (memField pf "SwapTotal:" lines)
            (memField pf "SwapFree:" lines)) (memField pf "SwapTotal:" lines)) (F64.fin 100)
         else F64.fin 0) := by
    simp only [getMemAndSwapUsage, foldl_memLine]
  refine ⟨key, ?_, by decide!⟩
  intro h
  have z : F64.lt (F64.fin 0) (F64.fin 0) = false := by decide!
  rw [key, h]
  simp only [z, Bool.false_eq_true, if_false]
  exact ⟨_, rfl⟩

/-- An instance with swap disabled: `SwapTotal` 0 and `SwapFree` 5. -/
theorem getMemAndSwapUsage_formula_witness :
    memField readDecimal "SwapTotal:" ["MemTotal: 8 kB", "SwapTotal: 0 kB", "SwapFree: 5 kB"] =
        F64.fin 0 ∧
      ∃ mem : F64, getMemAndSwapUsage readDecimal
        (some ["MemTotal: 8 kB", "SwapTotal: 0 kB", "SwapFree: 5 kB"]) = some (mem, F64.fin 0) :=
  ⟨by decide!, (getMemAndSwapUsage_formula readDecimal
    ["MemTotal: 8 kB", "SwapTotal: 0 kB", "SwapFree: 5 kB"]).2.1 (by decide!)⟩

/-- C10, as stated, fails: a battery whose status file reads
`Not charging` gives that string as status, which is none of `Charging`,
`Discharging`, `Full`, `AC_Power`, `Unknown`. -/
theorem getBatteryInfo_status_outside :
    getBatteryInfo ⟨none, none, none, none, none, none, true, some "50\n",
        some "Not charging\n"⟩ = some (50, "Not charging") ∧
      "Not charging" ∉ ["Charging", "Discharging", "Full", "AC_Power", "Unknown"] := by
  decide!

/-- C10, amended: when `getBatteryInfo` succeeds the status is `AC_Power`
(with 100 percent) if the battery is absent, `Unknown` if the status file
cannot be read, and otherwise the content of the status file with the
surrounding white space trimmed, whatever that content is. -/
theorem getBatteryInfo_status (h : Host) (pct : Int) (status : String)
    (hs : getBatteryInfo h = some (pct, status)) :
    (h.batteryPresent = false ∧ pct = 100 ∧ status = "AC_Power") ∨
      (h.batteryPresent = true ∧ h.batteryStatus = none ∧ status = "Unknown") ∨
      (h.batteryPresent = true ∧ ∃ d : String, h.batteryStatus = some d ∧
        status = trimSpace d) := by
  unfold getBatteryInfo at hs
  cases hp : h.batteryPresent with
  | false =>
    simp only [hp, Bool.not_false, if_true, Option.some.injEq, Prod.mk.injEq] at hs
    exact Or.inl ⟨rfl, hs.1.symm, hs.2.symm⟩
  | true =>
    simp only [hp, Bool.not_true, Bool.false_eq_true, if_false] at hs
    cases hc : h.batteryCapacity with
    | none => simp [hc] at hs
    | some capData =>
      cases hst : h.batteryStatus with
      | none =>
        simp only [hc, hst, Option.some.injEq, Prod.mk.injEq] at hs
        exact Or.inr (Or.inl ⟨rfl, rfl, hs.2.symm⟩)
      | some d =>
        simp only [hc, hst, Option.some.injEq, Prod.mk.injEq] at hs
        exact Or.inr (Or.inr ⟨rfl, d, rfl, hs.2.symm⟩)

/-- An instance with a battery at 50 percent whose status file reads `Charging`. -/
theorem getBatteryInfo_status_witness :
    getBatteryInfo ⟨none, none, none, none, none, none, true, some "50\n",
        some " Charging\n"⟩ = some (50, "Charging") ∧
      (((⟨none, none, none, none, none, none, true, some "50\n", some " Charging\n"⟩ :
            Host).batteryPresent = false ∧ (50 : Int) = 100 ∧ "Charging" = "AC_Power") ∨
        ((⟨none, none, none, none, none, none, true, some "50\n", some " Charging\n"⟩ :
            Host).batteryPresent = true ∧
          (⟨none, none, none, none, none, none, true, some "50\n", some " Charging\n"⟩ :
            Host).batteryStatus = none ∧ "Charging" = "Unknown") ∨
        ((⟨none, none, none, none, none, none, true, some "50\n", some " Charging\n"⟩ :
            Host).batteryPresent = true ∧ ∃ d : String,
          (⟨none, none, none, none, none, none, true, some "50\n", some " Charging\n"⟩ :
            Host).batteryStatus = some d ∧ "Charging" = trimSpace d)) :=
  ⟨by decide!, getBatteryInfo_status _ 50 "Charging" (by decide!)⟩

/-- C5: the claim is violated by the code. A readable but empty load-average
source makes `getLoadAvg` index an empty slice, and `GetMetrics` panics
instead of returning a snapshot; the same happens in `getUptime` on an empty
uptime source. The sibling `getFDStats` checks the length and fails cleanly. -/
theorem GetMetrics_panics_on_short_source :
    GetMetrics readDecimal NewCollector
        ⟨some [], none, some "", some "12.5 3.0\n", none, none, false, none, none⟩ = Run.panic ∧
      GetMetrics readDecimal NewCollector
        ⟨some [], none, some "0.10 0.20\n", some "12.5 3.0\n", none, none, false, none, none⟩ =
          Run.panic ∧
      GetMetrics readDecimal NewCollector
        ⟨some [], none, some "1 2 3 1/100 42\n", some "\n", none, none, false, none, none⟩ =
          Run.panic ∧
      getFDStats (some "") = none := by
  decide!

end SysAgent
